import Mathlib

/-!
# UF-Scheduler backend — a shallow embedding of `server.py`

This file embeds the core of the repository's `server.py` in Lean:

* the course-code normalization used by the prerequisite-graph subsystem
  (`format_course_code` together with Python's `str.rstrip` / `str.replace`);
* the prerequisite extraction `clean_prereq` (Python
  `re.findall(r'[A-Z]{3}\s\d{4}', ...)`);
* the per-department graph builder `build_graph_for_all_majors`
  (Python dicts are embedded as insertion-ordered association lists with
  overwrite-on-existing-key semantics, `networkx.DiGraph` as an
  insertion-ordered node list plus edge list);
* the `/api/get_courses` search handler `get_courses` (the SQLite FTS query is
  embedded as: filter by an abstract match predicate, sort by the concrete
  `ORDER BY top_sort, rank` key with an abstract `bm25` score, then apply
  `OFFSET`/`LIMIT` with SQLite's negative-argument semantics; querying a
  term whose `courses_fts` table was never created raises an operational
  error, embedded as `SearchErr.unknownTerm`);
* the `/generate_a_list` handler `generate_a_list`, with the process-wide
  `major_graph_map` threaded as explicit state so that the handler's
  (non-)mutation of it is part of the embedding.
-/

/-! ## Character classes (Python `re` ASCII behaviour and `str` whitespace) -/

/-- `[A-Z]` of the regex, and the letter part of
`rstrip('ABCDEFGHIJKLMNOPQRSTUVWXYZ ')`. -/
def isUpperAZ (c : Char) : Bool := 65 ≤ c.toNat && c.toNat ≤ 90

/-- `\s` of the regex (the pattern is a `str` and `re.ASCII` is not
passed, so this is Python's Unicode whitespace: tab through carriage
return, the file/group/record/unit separators, space, next line, no-break
space, ogham space mark, the Unicode space characters, line/paragraph
separator, narrow no-break space, medium mathematical space and
ideographic space).  The same set is what the no-argument `str.strip()`
strips and `str.split()` splits on. -/
def isPySpace (c : Char) : Bool :=
  (0x9 ≤ c.toNat && c.toNat ≤ 0xd) || (0x1c ≤ c.toNat && c.toNat ≤ 0x20) ||
  c.toNat = 0x85 || c.toNat = 0xa0 || c.toNat = 0x1680 ||
  (0x2000 ≤ c.toNat && c.toNat ≤ 0x200a) ||
  (0x2028 ≤ c.toNat && c.toNat ≤ 0x2029) || c.toNat = 0x202f ||
  c.toNat = 0x205f || c.toNat = 0x3000

/-- `\d` of the regex (no `re.ASCII`): any Unicode decimal digit,
category Nd, as of the Unicode database of CPython 3.11. -/
def isDigitNd (c : Char) : Bool :=
  (0x30 ≤ c.toNat && c.toNat ≤ 0x39) ||
  (0x660 ≤ c.toNat && c.toNat ≤ 0x669) ||
  (0x6f0 ≤ c.toNat && c.toNat ≤ 0x6f9) ||
  (0x7c0 ≤ c.toNat && c.toNat ≤ 0x7c9) ||
  (0x966 ≤ c.toNat && c.toNat ≤ 0x96f) ||
  (0x9e6 ≤ c.toNat && c.toNat ≤ 0x9ef) ||
  (0xa66 ≤ c.toNat && c.toNat ≤ 0xa6f) ||
  (0xae6 ≤ c.toNat && c.toNat ≤ 0xaef) ||
  (0xb66 ≤ c.toNat && c.toNat ≤ 0xb6f) ||
  (0xbe6 ≤ c.toNat && c.toNat ≤ 0xbef) ||
  (0xc66 ≤ c.toNat && c.toNat ≤ 0xc6f) ||
  (0xce6 ≤ c.toNat && c.toNat ≤ 0xcef) ||
  (0xd66 ≤ c.toNat && c.toNat ≤ 0xd6f) ||
  (0xde6 ≤ c.toNat && c.toNat ≤ 0xdef) ||
  (0xe50 ≤ c.toNat && c.toNat ≤ 0xe59) ||
  (0xed0 ≤ c.toNat && c.toNat ≤ 0xed9) ||
  (0xf20 ≤ c.toNat && c.toNat ≤ 0xf29) ||
  (0x1040 ≤ c.toNat && c.toNat ≤ 0x1049) ||
  (0x1090 ≤ c.toNat && c.toNat ≤ 0x1099) ||
  (0x17e0 ≤ c.toNat && c.toNat ≤ 0x17e9) ||
  (0x1810 ≤ c.toNat && c.toNat ≤ 0x1819) ||
  (0x1946 ≤ c.toNat && c.toNat ≤ 0x194f) ||
  (0x19d0 ≤ c.toNat && c.toNat ≤ 0x19d9) ||
  (0x1a80 ≤ c.toNat && c.toNat ≤ 0x1a89) ||
  (0x1a90 ≤ c.toNat && c.toNat ≤ 0x1a99) ||
  (0x1b50 ≤ c.toNat && c.toNat ≤ 0x1b59) ||
  (0x1bb0 ≤ c.toNat && c.toNat ≤ 0x1bb9) ||
  (0x1c40 ≤ c.toNat && c.toNat ≤ 0x1c49) ||
  (0x1c50 ≤ c.toNat && c.toNat ≤ 0x1c59) ||
  (0xa620 ≤ c.toNat && c.toNat ≤ 0xa629) ||
  (0xa8d0 ≤ c.toNat && c.toNat ≤ 0xa8d9) ||
  (0xa900 ≤ c.toNat && c.toNat ≤ 0xa909) ||
  (0xa9d0 ≤ c.toNat && c.toNat ≤ 0xa9d9) ||
  (0xa9f0 ≤ c.toNat && c.toNat ≤ 0xa9f9) ||
  (0xaa50 ≤ c.toNat && c.toNat ≤ 0xaa59) ||
  (0xabf0 ≤ c.toNat && c.toNat ≤ 0xabf9) ||
  (0xff10 ≤ c.toNat && c.toNat ≤ 0xff19) ||
  (0x104a0 ≤ c.toNat && c.toNat ≤ 0x104a9) ||
  (0x10d30 ≤ c.toNat && c.toNat ≤ 0x10d39) ||
  (0x11066 ≤ c.toNat && c.toNat ≤ 0x1106f) ||
  (0x110f0 ≤ c.toNat && c.toNat ≤ 0x110f9) ||
  (0x11136 ≤ c.toNat && c.toNat ≤ 0x1113f) ||
  (0x111d0 ≤ c.toNat && c.toNat ≤ 0x111d9) ||
  (0x112f0 ≤ c.toNat && c.toNat ≤ 0x112f9) ||
  (0x11450 ≤ c.toNat && c.toNat ≤ 0x11459) ||
  (0x114d0 ≤ c.toNat && c.toNat ≤ 0x114d9) ||
  (0x11650 ≤ c.toNat && c.toNat ≤ 0x11659) ||
  (0x116c0 ≤ c.toNat && c.toNat ≤ 0x116c9) ||
  (0x11730 ≤ c.toNat && c.toNat ≤ 0x11739) ||
  (0x118e0 ≤ c.toNat && c.toNat ≤ 0x118e9) ||
  (0x11950 ≤ c.toNat && c.toNat ≤ 0x11959) ||
  (0x11c50 ≤ c.toNat && c.toNat ≤ 0x11c59) ||
  (0x11d50 ≤ c.toNat && c.toNat ≤ 0x11d59) ||
  (0x11da0 ≤ c.toNat && c.toNat ≤ 0x11da9) ||
  (0x16a60 ≤ c.toNat && c.toNat ≤ 0x16a69) ||
  (0x16ac0 ≤ c.toNat && c.toNat ≤ 0x16ac9) ||
  (0x16b50 ≤ c.toNat && c.toNat ≤ 0x16b59) ||
  (0x1d7ce ≤ c.toNat && c.toNat ≤ 0x1d7ff) ||
  (0x1e140 ≤ c.toNat && c.toNat ≤ 0x1e149) ||
  (0x1e2f0 ≤ c.toNat && c.toNat ≤ 0x1e2f9) ||
  (0x1e950 ≤ c.toNat && c.toNat ≤ 0x1e959) ||
  (0x1fbf0 ≤ c.toNat && c.toNat ≤ 0x1fbf9)

/-! ## Python string primitives on `List Char` -/

/-- Python `s.rstrip(chars)`: remove trailing characters belonging to the
predicate `p`. -/
def pyRstrip (p : Char → Bool) (l : List Char) : List Char :=
  (l.reverse.dropWhile p).reverse

/-- Python `s.strip()` with no argument: remove leading and trailing
whitespace. -/
def pyStripChars (l : List Char) : List Char :=
  pyRstrip isPySpace (l.dropWhile isPySpace)

/-- Python `s.strip()` at the `String` level. -/
def pyStrip (s : String) : String := ⟨pyStripChars s.data⟩

/-- Python `s.replace(" ", "")`: delete every space character. -/
def pyReplaceSpace (l : List Char) : List Char := l.filter (fun c => c ≠ ' ')

/-- Python `s.split()` with no argument: split on runs of whitespace,
discarding empty pieces.  `acc` holds the current word, reversed. -/
def pySplitAux : List Char → List Char → List (List Char)
  | [], acc => if acc.isEmpty then [] else [acc.reverse]
  | c :: rest, acc =>
    if isPySpace c then
      if acc.isEmpty then pySplitAux rest [] else acc.reverse :: pySplitAux rest []
    else pySplitAux rest (c :: acc)

/-- Python `s.split()` at the `String` level. -/
def pySplit (s : String) : List String :=
  (pySplitAux s.data []).map (fun l => ⟨l⟩)

/-! ## `clean_prereq`: `re.findall(r'[A-Z]{3}\s\d{4}', prerequisites)`

`re.findall` returns the leftmost non-overlapping matches, scanning left to
right and resuming after the end of each match. -/

/-- Whether a character list *begins* with a match of `[A-Z]{3}\s\d{4}`:
three uppercase letters, one whitespace character, four digits. -/
def headShape : List Char → Bool
  | a :: b :: c :: w :: d1 :: d2 :: d3 :: d4 :: _ =>
    isUpperAZ a && isUpperAZ b && isUpperAZ c && isPySpace w &&
    isDigitNd d1 && isDigitNd d2 && isDigitNd d3 && isDigitNd d4
  | _ => false

/-- Whether a character list is exactly one match of `[A-Z]{3}\s\d{4}`:
three uppercase letters, one whitespace character, four digits, and
nothing else. -/
def matchShape (t : List Char) : Bool := headShape t && t.length == 8

/-- Scanner for `re.findall(r'[A-Z]{3}\s\d{4}', s)`.  The first argument
counts characters still to be skipped (the tail of a match already
emitted); at `0` the scanner looks for a match starting at the current
position. -/
def reFindAllAux : Nat → List Char → List (List Char)
  | _, [] => []
  | n + 1, _ :: rest => reFindAllAux n rest
  | 0, c :: rest =>
    if headShape (c :: rest) then (c :: rest).take 8 :: reFindAllAux 7 rest
    else reFindAllAux 0 rest

/-- `re.findall(r'[A-Z]{3}\s\d{4}', s)` on a character list: leftmost
non-overlapping matches; after a match, scanning resumes past its end. -/
def reFindAll (s : List Char) : List (List Char) := reFindAllAux 0 s

/-- Skipping `n` characters is scanning the `n`-th tail. -/
theorem reFindAllAux_eq_drop :
    ∀ (l : List Char) (n : Nat), reFindAllAux n l = reFindAll (l.drop n) := by
  intro l
  induction l with
  | nil => intro n; cases n <;> rfl
  | cons c rest ih =>
    intro n
    cases n with
    | zero => rfl
    | succ n => simpa [reFindAllAux] using ih n

/-- The scan equation of `reFindAll`: emit the 8-character match at the
head and resume past it, or advance one character. -/
theorem reFindAll_cons (c : Char) (rest : List Char) :
    reFindAll (c :: rest) =
      if headShape (c :: rest) then
        (c :: rest).take 8 :: reFindAll ((c :: rest).drop 8)
      else reFindAll rest := by
  show reFindAllAux 0 (c :: rest) = _
  rw [reFindAllAux]
  split
  · rw [reFindAllAux_eq_drop rest 7]
    rfl
  · rfl

/-- `clean_prereq` from `server.py`:
`return re.findall(r'[A-Z]{3}\s\d{4}', prerequisites)`. -/
def clean_prereq (prerequisites : String) : List String :=
  (reFindAll prerequisites.data).map (fun l => ⟨l⟩)

/-! ## Course-code normalization -/

/-- `format_course_code` from `server.py`:
`return course[:3] + '\n' + course[3:]` (on character lists). -/
def format_course_code (course : List Char) : List Char :=
  course.take 3 ++ '\n' :: course.drop 3

/-- The strip set of `code.rstrip('ABCDEFGHIJKLMNOPQRSTUVWXYZ ')`:
uppercase letters and the space character. -/
def stripSet (c : Char) : Bool := isUpperAZ c || c = ' '

/-- Normalization of a course's own code, as in `build_graph_for_all_majors`:
`format_course_code(code.rstrip('ABCDEFGHIJKLMNOPQRSTUVWXYZ '))`. -/
def normalizeCourseCode (code : String) : String :=
  ⟨format_course_code (pyRstrip stripSet code.data)⟩

/-- Normalization of an extracted prerequisite code, as in
`build_graph_for_all_majors`:
`format_course_code(prereq.replace(" ", "").rstrip(' '))`. -/
def normalizePrereqCode (prereq : String) : String :=
  ⟨format_course_code (pyRstrip (fun c => c = ' ') (pyReplaceSpace prereq.data))⟩

/-! ## Course records (the ingested JSON) -/

/-- One instructor entry of a section. -/
structure Instructor where
  name : String
  deriving DecidableEq, Repr

/-- One section of a course: carries the department name and instructors. -/
structure Section where
  deptName : String
  instructors : List Instructor
  deriving DecidableEq, Repr

/-- A course record as ingested from the per-term JSON files. -/
structure CourseRecord where
  code : String
  codeWithSpace : String
  name : String
  description : String
  prerequisites : String
  sections : List Section
  deriving DecidableEq, Repr

/-- The department of a course: `sections[0].get("deptName", "")` if the
course has sections, else `""`. -/
def deptOf (c : CourseRecord) : String :=
  match c.sections with
  | [] => ""
  | s :: _ => s.deptName

/-! ## Python dicts as insertion-ordered association lists

A Python dict iterates in key-insertion order; assigning to an existing key
overwrites its value in place.  `upsert` reproduces exactly that. -/

/-- `m[k] = v` on a Python dict: overwrite in place if `k` is present,
else append at the end. -/
def upsert {α β : Type} [DecidableEq α] (k : α) (v : β) :
    List (α × β) → List (α × β)
  | [] => [(k, v)]
  | (k', v') :: rest =>
    if k' = k then (k, v) :: rest else (k', v') :: upsert k v rest

/-- `m.get(k)` on a Python dict (first — and only — binding of `k`). -/
def lookupA {α β : Type} [DecidableEq α] (k : α) : List (α × β) → Option β
  | [] => none
  | (k', v) :: rest => if k' = k then some v else lookupA k rest

/-- `m.setdefault(k, []).append(v)` on a Python dict of lists. -/
def appendGroup {α β : Type} [DecidableEq α] (k : α) (v : β) :
    List (α × List β) → List (α × List β)
  | [] => [(k, [v])]
  | (k', vs) :: rest =>
    if k' = k then (k', vs ++ [v]) :: rest else (k', vs) :: appendGroup k v rest

/-! ## `networkx.DiGraph` as insertion-ordered node and edge lists -/

/-- A directed graph: nodes and edges in insertion order, without
duplicates (matching `networkx` iteration order). -/
structure Graph where
  nodes : List String
  edges : List (String × String)
  deriving DecidableEq, Repr

/-- `nx.DiGraph()`. -/
def Graph.empty : Graph := ⟨[], []⟩

/-- `G.add_node(n)`: a no-op when the node is already present. -/
def Graph.addNode (g : Graph) (n : String) : Graph :=
  if n ∈ g.nodes then g else { g with nodes := g.nodes ++ [n] }

/-- `G.add_edge(u, v)`: adds the missing endpoints (`u` first), then the
edge if not already present. -/
def Graph.addEdge (g : Graph) (u v : String) : Graph :=
  let g1 := (g.addNode u).addNode v
  if (u, v) ∈ g1.edges then g1 else { g1 with edges := g1.edges ++ [(u, v)] }

/-! ## `build_graph_for_all_majors` -/

/-- The dict `code_dept_map` of `build_graph_for_all_majors`:
`code -> deptName` over all courses, later courses overwriting earlier
ones with the same code. -/
def code_dept_map (all_courses : List CourseRecord) : List (String × String) :=
  all_courses.foldl (fun m c => upsert c.code (deptOf c) m) []

/-- The dict `code_prereq_map` of `build_graph_for_all_majors`:
`code -> course.get("prerequisites", "")`. -/
def code_prereq_map (all_courses : List CourseRecord) : List (String × String) :=
  all_courses.foldl (fun m c => upsert c.code c.prerequisites m) []

/-- The dict `major_courses_map`: department name -> list of course codes,
built by iterating `code_dept_map.items()` with
`setdefault(dept, []).append(code)`. -/
def major_courses_map (all_courses : List CourseRecord) :
    List (String × List String) :=
  (code_dept_map all_courses).foldl (fun m p => appendGroup p.2 p.1 m) []

/-- The body of the `for prereq in prereq_list` loop of
`build_graph_for_all_majors`: add the edge `pre_fmt → course_fmt` unless
the two normalized codes coincide. -/
def addPrereqEdge (course_fmt : String) (g : Graph) (prereq : String) : Graph :=
  let pre_fmt := normalizePrereqCode prereq
  if course_fmt ≠ pre_fmt then g.addEdge pre_fmt course_fmt else g

/-- The inner loop of `build_graph_for_all_majors` for one course code:
extract its prerequisites, normalize, and add one edge per extracted
prerequisite unless the normalized codes coincide. -/
def edgesForCode (prereqMap : List (String × String)) (g : Graph)
    (code : String) : Graph :=
  let prereq_list := clean_prereq ((lookupA code prereqMap).getD "")
  let course_fmt := normalizeCourseCode code
  prereq_list.foldl (addPrereqEdge course_fmt) g

/-- The graph built for one department from its member course codes. -/
def buildDeptGraph (prereqMap : List (String × String))
    (codes : List String) : Graph :=
  codes.foldl (edgesForCode prereqMap) Graph.empty

/-- `build_graph_for_all_majors(all_courses)`: one directed graph per
department name observed among the courses. -/
def build_graph_for_all_majors (all_courses : List CourseRecord) :
    List (String × Graph) :=
  (major_courses_map all_courses).map
    (fun p => (p.1, buildDeptGraph (code_prereq_map all_courses) p.2))

/-! ## The `/api/get_courses` search handler -/

/-- One row of the `courses_fts` FTS table. -/
structure FtsRow where
  code : String
  codeWithSpace : String
  name : String
  description : String
  instructors : String
  json_data : CourseRecord
  deriving DecidableEq, Repr

/-- The persistent database state: the `courses_fts` tables that exist,
keyed by `(year, term)` (the key of `courses_{year}_{term}.db`).  A term that
never had an index built is absent; `sqlite3.connect` then creates an empty
database in which the query `SELECT ... FROM courses_fts` fails. -/
def DbState : Type := List ((String × String) × List FtsRow)

/-- Errors observable from `get_courses`: the explicit 400 response for a
missing year/term, and the `sqlite3.OperationalError` ("no such table:
courses_fts") raised when the requested term has no built index — the
spec's `UnknownTerm` condition. -/
inductive SearchErr where
  | missingParams
  | unknownTerm
  deriving DecidableEq, Repr

/-- The JSON request body of `/api/get_courses`; absent fields are `none`. -/
structure SearchBody where
  searchTerm : Option String
  itemsPerPage : Option Int
  startFrom : Option Int
  year : Option String
  term : Option String

/-- Python truthiness of `data.get(...)` for a string field:
`not x` holds for `None` and for the empty string. -/
def falsyStr : Option String → Bool
  | none => true
  | some s => s = ""

/-- The `top_sort` column of the query:
`CASE WHEN codeWithSpace = :exactSearch OR code = :exactSearch THEN 0 ELSE 1
END`. -/
def topSort (exactSearch : String) (r : FtsRow) : Nat :=
  if r.codeWithSpace = exactSearch ∨ r.code = exactSearch then 0 else 1

/-- The `ORDER BY top_sort, rank` key as a relation on rows, for an
abstract `bm25` score `bm`. -/
def rowLE (exactSearch : String) (bm : FtsRow → Int) (a b : FtsRow) : Prop :=
  topSort exactSearch a < topSort exactSearch b ∨
    (topSort exactSearch a = topSort exactSearch b ∧ bm a ≤ bm b)

instance (e : String) (bm : FtsRow → Int) : DecidableRel (rowLE e bm) :=
  fun a b => inferInstanceAs (Decidable (_ ∨ _))

instance (e : String) (bm : FtsRow → Int) : IsTotal FtsRow (rowLE e bm) where
  total a b := by
    unfold rowLE
    rcases lt_trichotomy (topSort e a) (topSort e b) with h | h | h
    · exact Or.inl (Or.inl h)
    · rcases le_total (bm a) (bm b) with hb | hb
      · exact Or.inl (Or.inr ⟨h, hb⟩)
      · exact Or.inr (Or.inr ⟨h.symm, hb⟩)
    · exact Or.inr (Or.inl h)

instance (e : String) (bm : FtsRow → Int) : IsTrans FtsRow (rowLE e bm) where
  trans a b c hab hbc := by
    unfold rowLE at *
    rcases hab with h1 | ⟨h1, h1'⟩ <;> rcases hbc with h2 | ⟨h2, h2'⟩
    · exact Or.inl (h1.trans h2)
    · exact Or.inl (h2 ▸ h1)
    · exact Or.inl (h1 ▸ h2)
    · exact Or.inr ⟨h1.trans h2, h1'.trans h2'⟩

/-- `LIMIT :limit OFFSET :offset` with SQLite semantics: a negative offset
acts as 0, a negative limit means "no limit". -/
def sqlSlice {α : Type} (limit offset : Int) (l : List α) : List α :=
  let afterOffset := l.drop offset.toNat
  if limit < 0 then afterOffset else afterOffset.take limit.toNat

/-- The FTS prefix query built from the stripped search phrase:
`' '.join(t + '*' for t in searchTerm.split())`. -/
def ftsQueryOf (searchTerm : String) : String :=
  " ".intercalate ((pySplit searchTerm).map (fun t => t ++ "*"))

/-- The row-level part of `get_courses`: everything up to (and including)
the SQL query, returning the selected rows in order.  `ftsMatch` abstracts
the FTS5 `MATCH` predicate (applied to the built prefix query) and `bm`
abstracts the `bm25(courses_fts)` score of each matched row. -/
def get_courses_rows (dbs : DbState) (ftsMatch : String → FtsRow → Bool)
    (bm : FtsRow → Int) (body : SearchBody) : Except SearchErr (List FtsRow) :=
  let searchTerm := pyStrip (body.searchTerm.getD "")
  let itemsPerPage := body.itemsPerPage.getD 20
  let startFrom := body.startFrom.getD 0
  if falsyStr body.year || falsyStr body.term then .error .missingParams
  else if searchTerm = "" then .ok []
  else
    let ftsQuery := ftsQueryOf searchTerm
    match lookupA (body.year.getD "", body.term.getD "") dbs with
    | none => .error .unknownTerm
    | some rows =>
      let matched := rows.filter (ftsMatch ftsQuery)
      let ordered := matched.insertionSort (rowLE searchTerm bm)
      .ok (sqlSlice itemsPerPage startFrom ordered)

/-- `get_courses` from `server.py`: the selected rows' `json_data`
deserialized back into course records. -/
def get_courses (dbs : DbState) (ftsMatch : String → FtsRow → Bool)
    (bm : FtsRow → Int) (body : SearchBody) :
    Except SearchErr (List CourseRecord) :=
  (get_courses_rows dbs ftsMatch bm body).map (List.map (fun r => r.json_data))

/-! ## The `/generate_a_list` handler -/

/-- The process-wide `major_graph_map`:
`{(year, term): {departmentName: nx.DiGraph}}`. -/
def MajorGraphMap : Type := List ((String × String) × List (String × Graph))

/-- The JSON request body of `/generate_a_list`; `selectedMajorServ` and
`selectedCoursesServ` are accessed with `data[...]` and so are required. -/
structure GenBody where
  selectedMajorServ : String
  selectedCoursesServ : List String
  year : Option String
  term : Option String

/-- One rendered node of the response. -/
structure NodeOut where
  id : String
  classes : String
  deriving DecidableEq, Repr

/-- The response of `/generate_a_list`. -/
structure GenResponse where
  nodes : List NodeOut
  edges : List (String × String)
  deriving DecidableEq, Repr

/-- `generate_a_list` from `server.py`.  The handler reads the shared
`major_graph_map`, copies the department graph (`base_graph.copy()`),
mutates only the copy, and leaves the shared map as it was; the map is
threaded as state so this is visible in the type. -/
def generate_a_list (mgm : MajorGraphMap) (body : GenBody) :
    GenResponse × MajorGraphMap :=
  let formatted_taken_courses :=
    body.selectedCoursesServ.map normalizeCourseCode
  let major_graphs :=
    match body.year, body.term with
    | some y, some t => (lookupA (y, t) mgm).getD []
    | _, _ => []
  let base_graph := (lookupA body.selectedMajorServ major_graphs).getD Graph.empty
  let G := formatted_taken_courses.foldl Graph.addNode base_graph
  let nodes := G.nodes.map (fun n =>
    { id := n
      classes := if n ∈ formatted_taken_courses then "selected" else "not_selected" })
  ({ nodes := nodes, edges := G.edges }, mgm)

/-! ## Helper lemmas -/

/-- Stripping a fully-whitespace string yields the empty string. -/
theorem pyStrip_eq_empty_of_all_space (s : String)
    (h : ∀ c ∈ s.data, isPySpace c = true) : pyStrip s = "" := by
  have hdrop : s.data.dropWhile isPySpace = [] := List.dropWhile_eq_nil_iff.mpr h
  apply String.ext
  simp [pyStrip, pyStripChars, pyRstrip, hdrop]

/-- `pyStrip` of the empty string is the empty string. -/
theorem pyStrip_empty : pyStrip "" = "" := rfl

/-! ## C9 — empty search phrase short-circuits to an empty result -/

/-- **C9.** For every database state, match predicate, score function,
non-empty year/term pair, page size and offset, searching with the empty
phrase returns the empty result list (not an error), regardless of the
index contents for that term. -/
theorem search_empty_phrase_ok_nil (dbs : DbState)
    (fm : String → FtsRow → Bool) (bm : FtsRow → Int)
    (y t : String) (ipp sf : Option Int) (hy : y ≠ "") (ht : t ≠ "") :
    get_courses dbs fm bm ⟨some "", ipp, sf, some y, some t⟩ = .ok [] := by
  simp [get_courses, get_courses_rows, falsyStr, hy, ht, pyStrip_empty,
    Except.map]

/-- Witness for C9 at a concrete input. -/
theorem search_empty_phrase_ok_nil_witness :
    ("25" : String) ≠ "" ∧ ("fall" : String) ≠ "" ∧
      get_courses [] (fun _ _ => true) (fun _ => 0)
        ⟨some "", some 20, some 0, some "25", some "fall"⟩ = .ok [] :=
  ⟨by decide, by decide,
    search_empty_phrase_ok_nil [] (fun _ _ => true) (fun _ => 0)
      "25" "fall" (some 20) (some 0) (by decide) (by decide)⟩

/-! ## C10 — whitespace-only phrases short-circuit before the index is
opened -/

/-- **C10.** The phrase is stripped before the emptiness check, and the
emptiness check happens before the term's database is opened: for every
phrase consisting only of whitespace characters (including the empty
string) and every non-empty year/term pair — even one for which no index
was ever built — the search returns the empty list and no error. -/
theorem search_whitespace_phrase_ok_nil (dbs : DbState)
    (fm : String → FtsRow → Bool) (bm : FtsRow → Int)
    (phrase : String) (hphrase : ∀ c ∈ phrase.data, isPySpace c = true)
    (y t : String) (ipp sf : Option Int) (hy : y ≠ "") (ht : t ≠ "") :
    get_courses dbs fm bm ⟨some phrase, ipp, sf, some y, some t⟩ = .ok [] := by
  simp [get_courses, get_courses_rows, falsyStr, hy, ht,
    pyStrip_eq_empty_of_all_space phrase hphrase, Except.map]

/-- Witness for C10 at a concrete input: a tab-space phrase against a state
with no built index at all. -/
theorem search_whitespace_phrase_ok_nil_witness :
    (∀ c ∈ (" \t " : String).data, isPySpace c = true) ∧
      get_courses [] (fun _ _ => true) (fun _ => 0)
        ⟨some " \t ", none, none, some "25", some "fall"⟩ = .ok [] :=
  ⟨by decide,
    search_whitespace_phrase_ok_nil [] (fun _ _ => true) (fun _ => 0)
      " \t " (by decide) "25" "fall" none none (by decide) (by decide)⟩

/-! ## C1 — searching a term with no built index fails with the
missing-term error -/

/-- **C1.** For every term key for which no `courses_fts` table exists
(no index was built), searching with a phrase that is non-empty after
stripping fails with the `unknownTerm` error — the embedded
`sqlite3.OperationalError` for the missing `courses_fts` table, the spec's
client-visible `UnknownTerm` condition — rather than succeeding or failing
in some other way. -/
theorem search_unbuilt_term_unknownTerm (dbs : DbState)
    (fm : String → FtsRow → Bool) (bm : FtsRow → Int)
    (phrase : String) (ipp sf : Option Int) (y t : String)
    (hy : y ≠ "") (ht : t ≠ "") (hphrase : pyStrip phrase ≠ "")
    (hnodb : lookupA (y, t) dbs = (none : Option (List FtsRow))) :
    get_courses dbs fm bm ⟨some phrase, ipp, sf, some y, some t⟩ =
      .error .unknownTerm := by
  simp [get_courses, get_courses_rows, falsyStr, hy, ht, hphrase, hnodb,
    Except.map]

/-- Witness for C1 at a concrete input. -/
theorem search_unbuilt_term_unknownTerm_witness :
    pyStrip "cop" ≠ "" ∧
      lookupA ("25", "fall") ([] : DbState) = none ∧
      get_courses [] (fun _ _ => true) (fun _ => 0)
        ⟨some "cop", some 20, some 0, some "25", some "fall"⟩ =
        .error .unknownTerm :=
  ⟨by decide, rfl,
    search_unbuilt_term_unknownTerm [] (fun _ _ => true) (fun _ => 0)
      "cop" (some 20) (some 0) "25" "fall" (by decide) (by decide)
      (by decide) rfl⟩

/-! ## C7 — `/generate_a_list` never mutates the stored graph map -/

/-- **C7.** The graph materializer never mutates the stored graph map
(`major_graph_map`): rendering with a completed set `c1`, then with `c2`,
leaves the stored state unchanged, so a third call with `c1` returns
exactly the first call's result.  In the embedding the handler's effect on
the shared map is threaded explicitly, and — because the source copies the
department graph before touching it — the map comes back unchanged. -/
theorem generate_a_list_nonmutating (mgm : MajorGraphMap) (major : String)
    (year term : Option String) (c1 c2 : List String) :
    (generate_a_list mgm ⟨major, c1, year, term⟩).2 = mgm ∧
    (generate_a_list
        (generate_a_list mgm ⟨major, c1, year, term⟩).2
        ⟨major, c2, year, term⟩).2 = mgm ∧
    (generate_a_list
        (generate_a_list
            (generate_a_list mgm ⟨major, c1, year, term⟩).2
            ⟨major, c2, year, term⟩).2
        ⟨major, c1, year, term⟩).1 =
      (generate_a_list mgm ⟨major, c1, year, term⟩).1 :=
  ⟨rfl, rfl, rfl⟩

/-! ## C5 — exact-match tier before relevance, relevance ascending within
tier -/

/-- A `LIMIT`/`OFFSET` slice is a sublist of the ordered result. -/
theorem sqlSlice_sublist {α : Type} (limit offset : Int) (l : List α) :
    (sqlSlice limit offset l).Sublist l := by
  unfold sqlSlice
  split
  · exact List.drop_sublist _ _
  · exact (List.take_sublist _ _).trans (List.drop_sublist _ _)

/-- **C5.** Every successful page of search results is ordered by
`(top_sort, rank)`: a row whose `codeWithSpace` or `code` exactly equals
the stripped (full, untokenized) search phrase precedes every row with no
such exact match, and within each tier rows are ordered by relevance score
ascending. -/
theorem search_results_sorted (dbs : DbState) (fm : String → FtsRow → Bool)
    (bm : FtsRow → Int) (body : SearchBody) (out : List FtsRow)
    (h : get_courses_rows dbs fm bm body = .ok out) :
    List.Pairwise (rowLE (pyStrip (body.searchTerm.getD "")) bm) out := by
  simp only [get_courses_rows] at h
  split at h
  · exact absurd h (by simp)
  · split at h
    · injection h with h; subst h; exact List.Pairwise.nil
    · split at h
      · exact absurd h (by simp)
      · injection h with h; subst h
        refine List.Pairwise.sublist (sqlSlice_sublist _ _ _) ?_
        exact List.sorted_insertionSort _ _

/-! ### Concrete material for witnesses -/

instance {ε α : Type} [DecidableEq ε] [DecidableEq α] :
    DecidableEq (Except ε α) := fun x y =>
  match x, y with
  | .ok a, .ok b =>
    if h : a = b then isTrue (by rw [h])
    else isFalse (fun hh => h (by injection hh))
  | .error e, .error f =>
    if h : e = f then isTrue (by rw [h])
    else isFalse (fun hh => h (by injection hh))
  | .ok _, .error _ => isFalse (fun hh => Except.noConfusion hh)
  | .error _, .ok _ => isFalse (fun hh => Except.noConfusion hh)

/-- A concrete course record with code `AAA1111`. -/
def recA : CourseRecord :=
  { code := "AAA1111", codeWithSpace := "AAA 1111", name := "a",
    description := "", prerequisites := "", sections := [] }

/-- A concrete course record with code `COP3502`. -/
def recC : CourseRecord :=
  { code := "COP3502", codeWithSpace := "COP 3502", name := "c",
    description := "", prerequisites := "", sections := [] }

/-- The FTS row built from a course record, as `init_db_for_file` does. -/
def rowOf (r : CourseRecord) : FtsRow :=
  { code := r.code, codeWithSpace := r.codeWithSpace, name := r.name,
    description := r.description, instructors := "", json_data := r }

/-- A concrete database state with one built term. -/
def dbsW : DbState := [(("25", "fall"), [rowOf recA, rowOf recC])]

/-- A concrete search body whose phrase exactly matches `recC`'s
display code. -/
def bodyW : SearchBody :=
  { searchTerm := some "COP 3502", itemsPerPage := some 20,
    startFrom := some 0, year := some "25", term := some "fall" }

/-- Witness for C5 at a concrete input: the exact-match row is returned
first even though both rows carry the same relevance score. -/
theorem search_results_sorted_witness :
    get_courses_rows dbsW (fun _ _ => true) (fun _ => 0) bodyW =
      .ok [rowOf recC, rowOf recA] ∧
    List.Pairwise (rowLE (pyStrip (bodyW.searchTerm.getD "")) (fun _ => 0))
      [rowOf recC, rowOf recA] :=
  ⟨by decide,
    search_results_sorted dbsW (fun _ _ => true) (fun _ => 0) bodyW
      [rowOf recC, rowOf recA] (by decide)⟩

/-! ## C8 — pagination is a stable slicing of one ordered result -/

/-- The fully-reduced form of `get_courses` on the main branch: a valid
year/term, a phrase that is non-empty after stripping, and a built index. -/
theorem get_courses_main_branch (dbs : DbState)
    (fm : String → FtsRow → Bool) (bm : FtsRow → Int)
    (phrase y t : String) (rows : List FtsRow) (ipp sf : Int)
    (hy : y ≠ "") (ht : t ≠ "") (hph : pyStrip phrase ≠ "")
    (hdb : lookupA (y, t) dbs = some rows) :
    get_courses dbs fm bm ⟨some phrase, some ipp, some sf, some y, some t⟩ =
      .ok ((sqlSlice ipp sf
        ((rows.filter (fm (ftsQueryOf (pyStrip phrase)))).insertionSort
          (rowLE (pyStrip phrase) bm))).map (fun r => r.json_data)) := by
  simp [get_courses, get_courses_rows, falsyStr, hy, ht, hph, hdb, Except.map]

/-- **C8.** Paged search results concatenate stably: for a fixed database
state, phrase and term, and a non-negative page size `k`, the results of
the pages `(k, 0)` and `(k, k)` concatenate to the first `2·k` results of
the single call `(2·k, 0)`. -/
theorem search_pagination_concat (dbs : DbState)
    (fm : String → FtsRow → Bool) (bm : FtsRow → Int)
    (phrase y t : String) (k : Int) (l1 l2 l3 : List CourseRecord)
    (hk : 0 ≤ k)
    (h1 : get_courses dbs fm bm
      ⟨some phrase, some k, some 0, some y, some t⟩ = .ok l1)
    (h2 : get_courses dbs fm bm
      ⟨some phrase, some k, some k, some y, some t⟩ = .ok l2)
    (h3 : get_courses dbs fm bm
      ⟨some phrase, some (2 * k), some 0, some y, some t⟩ = .ok l3) :
    l1 ++ l2 = l3.take (2 * k).toNat := by
  have hk' : ¬ k < 0 := not_lt.mpr hk
  have h2k : ¬ 2 * k < 0 := by omega
  by_cases hfy : (falsyStr (some y) || falsyStr (some t)) = true
  · simp [get_courses, get_courses_rows, hfy, Except.map] at h1
  · by_cases hph : pyStrip phrase = ""
    · simp [get_courses, get_courses_rows, hfy, hph, Except.map] at h1 h2 h3
      subst h1; subst h2; subst h3
      simp
    · simp only [falsyStr, Bool.or_eq_true, decide_eq_true_eq, not_or] at hfy
      obtain ⟨hy, ht⟩ := hfy
      cases hdb : lookupA (y, t) dbs with
      | none =>
        simp [get_courses, get_courses_rows, falsyStr, hy, ht, hph, hdb,
          Except.map] at h1
      | some rows =>
        rw [get_courses_main_branch dbs fm bm phrase y t rows k 0
          hy ht hph hdb] at h1
        rw [get_courses_main_branch dbs fm bm phrase y t rows k k
          hy ht hph hdb] at h2
        rw [get_courses_main_branch dbs fm bm phrase y t rows (2 * k) 0
          hy ht hph hdb] at h3
        injection h1 with h1; injection h2 with h2; injection h3 with h3
        subst h1; subst h2; subst h3
        simp only [sqlSlice, hk', h2k, if_false, Int.toNat_zero,
          List.drop_zero]
        have ha : k.toNat + k.toNat = (2 * k).toNat := by omega
        rw [← List.map_append, ← List.take_add, ha, ← List.map_take,
          List.take_take, min_self]

/-- Witness for C8 at a concrete input with page size 1. -/
theorem search_pagination_concat_witness :
    (0 : Int) ≤ 1 ∧
    get_courses dbsW (fun _ _ => true) (fun _ => 0)
      ⟨some "COP 3502", some 1, some 0, some "25", some "fall"⟩ =
        .ok [recC] ∧
    get_courses dbsW (fun _ _ => true) (fun _ => 0)
      ⟨some "COP 3502", some 1, some 1, some "25", some "fall"⟩ =
        .ok [recA] ∧
    get_courses dbsW (fun _ _ => true) (fun _ => 0)
      ⟨some "COP 3502", some (2 * 1), some 0, some "25", some "fall"⟩ =
        .ok [recC, recA] ∧
    [recC] ++ [recA] = List.take ((2 : Int) * 1).toNat [recC, recA] :=
  ⟨by decide, by decide, by decide, by decide,
    search_pagination_concat dbsW (fun _ _ => true) (fun _ => 0)
      "COP 3502" "25" "fall" 1 [recC] [recA] [recC, recA]
      (by decide) (by decide) (by decide) (by decide)⟩

/-! ## Graph lemmas -/

/-- `add_node` does not touch the edge list. -/
theorem Graph.edges_addNode (g : Graph) (n : String) :
    (g.addNode n).edges = g.edges := by
  unfold Graph.addNode; split <;> rfl

/-- Every node after `add_node` is the added node or an old node. -/
theorem Graph.mem_nodes_addNode {g : Graph} {n x : String}
    (h : x ∈ (g.addNode n).nodes) : x = n ∨ x ∈ g.nodes := by
  unfold Graph.addNode at h
  split at h
  · exact Or.inr h
  · rcases List.mem_append.mp h with h | h
    · exact Or.inr h
    · exact Or.inl (List.mem_singleton.mp h)

/-- Every edge after `add_edge` is the added edge or an old edge. -/
theorem Graph.mem_edges_addEdge {g : Graph} {u v : String}
    {e : String × String} (h : e ∈ (g.addEdge u v).edges) :
    e = (u, v) ∨ e ∈ g.edges := by
  simp only [Graph.addEdge] at h
  split at h
  · rw [Graph.edges_addNode, Graph.edges_addNode] at h
    exact Or.inr h
  · simp only [Graph.edges_addNode] at h
    rcases List.mem_append.mp h with h | h
    · exact Or.inr h
    · exact Or.inl (List.mem_singleton.mp h)

/-- Every node after `add_edge` is an endpoint of the added edge or an old
node. -/
theorem Graph.mem_nodes_addEdge {g : Graph} {u v x : String}
    (h : x ∈ (g.addEdge u v).nodes) : x = u ∨ x = v ∨ x ∈ g.nodes := by
  simp only [Graph.addEdge] at h
  have h' : x ∈ (((g.addNode u).addNode v).nodes) := by
    split at h
    · exact h
    · exact h
  rcases Graph.mem_nodes_addNode h' with h'' | h''
  · exact Or.inr (Or.inl h'')
  · rcases Graph.mem_nodes_addNode h'' with h3 | h3
    · exact Or.inl h3
    · exact Or.inr (Or.inr h3)

/-! ## C6 — no department graph ever contains a self-loop -/

/-- The prerequisite-edge loop preserves "no self-loops", since an edge is
only added under the guard `course_fmt != pre_fmt`. -/
theorem no_self_loop_addPrereqEdge_foldl (cf : String) (l : List String) :
    ∀ g : Graph, (∀ e ∈ g.edges, e.1 ≠ e.2) →
      ∀ e ∈ (l.foldl (addPrereqEdge cf) g).edges, e.1 ≠ e.2 := by
  induction l with
  | nil => intro g hg e he; exact hg e he
  | cons p rest ih =>
    intro g hg e he
    refine ih (addPrereqEdge cf g p) ?_ e he
    intro e' he'
    simp only [addPrereqEdge] at he'
    split at he'
    · rename_i hc
      rcases Graph.mem_edges_addEdge he' with h | h
      · subst h
        exact fun hcontra => hc hcontra.symm
      · exact hg e' h
    · exact hg e' he'

/-- The per-department loop preserves "no self-loops". -/
theorem no_self_loop_edgesForCode_foldl (pm : List (String × String))
    (codes : List String) :
    ∀ g : Graph, (∀ e ∈ g.edges, e.1 ≠ e.2) →
      ∀ e ∈ (codes.foldl (edgesForCode pm) g).edges, e.1 ≠ e.2 := by
  induction codes with
  | nil => intro g hg e he; exact hg e he
  | cons code rest ih =>
    intro g hg e he
    refine ih (edgesForCode pm g code) ?_ e he
    unfold edgesForCode
    exact no_self_loop_addPrereqEdge_foldl _ _ g hg

/-- **C6.** No department graph produced by `build_graph_for_all_majors`
contains a self-loop: an edge `prerequisite → course` is added only when
the two normalized codes differ, so `(n, n)` is never an edge. -/
theorem build_graphs_no_self_loop (all_courses : List CourseRecord)
    (dept : String) (G : Graph)
    (hG : (dept, G) ∈ build_graph_for_all_majors all_courses) :
    ∀ a b, (a, b) ∈ G.edges → a ≠ b := by
  intro a b hab
  unfold build_graph_for_all_majors at hG
  rcases List.mem_map.mp hG with ⟨p, _, hpq⟩
  have hGq : G = buildDeptGraph (code_prereq_map all_courses) p.2 := by
    have := congrArg Prod.snd hpq; simpa using this.symm
  subst hGq
  unfold buildDeptGraph at hab
  exact no_self_loop_edgesForCode_foldl _ _ Graph.empty
    (by intro e he; cases he) (a, b) hab

/-- A concrete course whose prerequisites text names a course from another
department. -/
def recMac : CourseRecord :=
  { code := "COP3502", codeWithSpace := "COP 3502", name := "Programming",
    description := "", prerequisites := "MAC 2311",
    sections := [{ deptName := "CS", instructors := [] }] }

/-- A concrete one-course catalog. -/
def allCex : List CourseRecord := [recMac]

/-- The department graph `build_graph_for_all_majors allCex` yields for
`"CS"`. -/
def Gcex : Graph :=
  { nodes := ["MAC\n2311", "COP\n3502"],
    edges := [("MAC\n2311", "COP\n3502")] }

/-- Witness for C6 at a concrete input: the one edge of the `"CS"` graph
relates two distinct nodes. -/
theorem build_graphs_no_self_loop_witness :
    build_graph_for_all_majors allCex = [("CS", Gcex)] ∧
      ("MAC\n2311" : String) ≠ "COP\n3502" :=
  ⟨by decide,
    build_graphs_no_self_loop allCex "CS" Gcex
      (by rw [(by decide : build_graph_for_all_majors allCex = [("CS", Gcex)])]
          exact List.mem_singleton.mpr rfl)
      "MAC\n2311" "COP\n3502" (by decide)⟩

/-! ## Association-map lemmas for the builder's dicts -/

/-- Looking up after an upsert: the upserted key wins, others unchanged. -/
theorem lookupA_upsert {α β : Type} [DecidableEq α] (k q : α) (v : β)
    (m : List (α × β)) :
    lookupA q (upsert k v m) = if k = q then some v else lookupA q m := by
  induction m with
  | nil => simp [upsert, lookupA]
  | cons p rest ih =>
    obtain ⟨k', v'⟩ := p
    by_cases h1 : k' = k
    · subst h1
      simp only [upsert, if_pos rfl, lookupA]
      by_cases h2 : k' = q
      · simp [h2]
      · simp [h2, lookupA]
    · simp only [upsert, if_neg h1, lookupA]
      by_cases h2 : k' = q
      · subst h2
        have : ¬ k = k' := fun h => h1 h.symm
        simp [this]
      · simp [h2, ih]

/-- Looking up in a dict built by upserting `c.code ↦ val c` over a course
list: the value of the last course with the looked-up code wins. -/
theorem lookupA_foldl_upsert (val : CourseRecord → String) :
    ∀ (l : List CourseRecord) (m0 : List (String × String)) (k : String),
    lookupA k (l.foldl (fun m c => upsert c.code (val c) m) m0) =
      ((l.reverse.find? (fun c => decide (c.code = k))).map val).or
        (lookupA k m0) := by
  intro l
  induction l with
  | nil => intro m0 k; simp
  | cons c t ih =>
    intro m0 k
    simp only [List.foldl_cons, List.reverse_cons, List.find?_append]
    rw [ih]
    cases hf : t.reverse.find? (fun c => decide (c.code = k)) with
    | some c' => simp
    | none =>
      simp only [Option.none_or, Option.or_none, List.find?]
      rw [lookupA_upsert]
      by_cases hc : c.code = k
      · simp [hc]
      · simp [hc]

/-- Every key of an upsert result is the upserted key or an old key. -/
theorem mem_keys_upsert {α β : Type} [DecidableEq α] {k x : α} {v : β}
    {m : List (α × β)} (h : x ∈ (upsert k v m).map Prod.fst) :
    x = k ∨ x ∈ m.map Prod.fst := by
  induction m with
  | nil => simpa [upsert] using h
  | cons p rest ih =>
    obtain ⟨k', v'⟩ := p
    by_cases h1 : k' = k
    · subst h1
      simpa [upsert] using h
    · simp only [upsert, if_neg h1, List.map_cons, List.mem_cons] at h
      rcases h with h | h
      · exact Or.inr (by simp [h])
      · rcases ih h with h | h
        · exact Or.inl h
        · exact Or.inr (by simp [h])

/-- Upserting preserves distinctness of keys. -/
theorem nodup_keys_upsert {α β : Type} [DecidableEq α] (k : α) (v : β)
    (m : List (α × β)) (h : (m.map Prod.fst).Nodup) :
    ((upsert k v m).map Prod.fst).Nodup := by
  induction m with
  | nil => simp [upsert]
  | cons p rest ih =>
    obtain ⟨k', v'⟩ := p
    simp only [List.map_cons, List.nodup_cons] at h
    by_cases h1 : k' = k
    · subst h1
      simpa [upsert] using h
    · simp only [upsert, if_neg h1, List.map_cons, List.nodup_cons]
      refine ⟨?_, ih h.2⟩
      intro hmem
      rcases mem_keys_upsert hmem with h2 | h2
      · exact h1 h2
      · exact h.1 h2

/-- The dicts built by the course fold have pairwise-distinct keys. -/
theorem nodup_keys_foldl_upsert (val : CourseRecord → String) :
    ∀ (l : List CourseRecord) (m0 : List (String × String)),
      (m0.map Prod.fst).Nodup →
      ((l.foldl (fun m c => upsert c.code (val c) m) m0).map Prod.fst).Nodup := by
  intro l
  induction l with
  | nil => intro m0 h; exact h
  | cons c t ih =>
    intro m0 h
    exact ih _ (nodup_keys_upsert c.code (val c) m0 h)

/-- In a dict with distinct keys, membership determines the lookup. -/
theorem lookupA_eq_of_mem_nodup {α β : Type} [DecidableEq α]
    {m : List (α × β)} {k : α} {v : β}
    (hn : (m.map Prod.fst).Nodup) (h : (k, v) ∈ m) :
    lookupA k m = some v := by
  induction m with
  | nil => cases h
  | cons p rest ih =>
    obtain ⟨k', v'⟩ := p
    simp only [List.map_cons, List.nodup_cons] at hn
    rcases List.mem_cons.mp h with h | h
    · obtain ⟨hk, hv⟩ := Prod.mk.injEq .. ▸ h.symm
      subst hk
      simp [lookupA, hv.symm]
    · have hk : k' ≠ k := by
        intro he
        subst he
        exact hn.1 (by simpa using ⟨v, h⟩)
      simp only [lookupA, if_neg hk]
      exact ih hn.2 h

/-- Every binding `(code, dept)` of `code_dept_map` is realized by a course
of the input — the last course with that code — whose prerequisites are
exactly what `code_prereq_map` yields for that code. -/
theorem code_dept_mem_course (all_courses : List CourseRecord)
    (code dept : String) (h : (code, dept) ∈ code_dept_map all_courses) :
    ∃ c, c ∈ all_courses ∧ c.code = code ∧ deptOf c = dept ∧
      lookupA code (code_prereq_map all_courses) = some c.prerequisites := by
  have hn : ((code_dept_map all_courses).map Prod.fst).Nodup :=
    nodup_keys_foldl_upsert deptOf all_courses [] (by simp)
  have hl : lookupA code (code_dept_map all_courses) = some dept :=
    lookupA_eq_of_mem_nodup hn h
  unfold code_dept_map at hl
  rw [lookupA_foldl_upsert deptOf all_courses [] code] at hl
  cases hf : all_courses.reverse.find? (fun c => decide (c.code = code)) with
  | none => rw [hf] at hl; simp [lookupA] at hl
  | some c =>
    rw [hf] at hl
    simp only [Option.map_some', Option.or, Option.some.injEq] at hl
    refine ⟨c, List.mem_reverse.mp (List.mem_of_find?_eq_some hf), ?_, hl, ?_⟩
    · simpa using List.find?_some hf
    · unfold code_prereq_map
      rw [lookupA_foldl_upsert (fun c => c.prerequisites) all_courses [] code,
        hf]
      simp

/-! ## Group-map lemmas -/

/-- `setdefault(k, []).append(v)` preserves the invariant that every
grouped element came from the reference pair list, provided `(v, k)` is in
it. -/
theorem groupOk_appendGroup (X : List (String × String)) (k v : String)
    (m : List (String × List String))
    (hm : ∀ p ∈ m, ∀ c ∈ p.2, (c, p.1) ∈ X) (hv : (v, k) ∈ X) :
    ∀ p ∈ appendGroup k v m, ∀ c ∈ p.2, (c, p.1) ∈ X := by
  induction m with
  | nil =>
    intro p hp c hc
    simp only [appendGroup, List.mem_singleton] at hp
    subst hp
    simp only [List.mem_singleton] at hc
    subst hc
    exact hv
  | cons q rest ih =>
    obtain ⟨k', vs⟩ := q
    intro p hp c hc
    by_cases h1 : k' = k
    · subst h1
      simp only [appendGroup, eq_self_iff_true, if_true, List.mem_cons] at hp
      rcases hp with hp | hp
      · subst hp
        simp only [List.mem_append, List.mem_singleton] at hc
        rcases hc with hc | hc
        · exact hm (k', vs) (List.mem_cons_self _ _) c hc
        · subst hc; exact hv
      · exact hm p (List.mem_cons_of_mem _ hp) c hc
    · simp only [appendGroup, if_neg h1, List.mem_cons] at hp
      rcases hp with hp | hp
      · subst hp
        exact hm (k', vs) (by simp) c hc
      · exact ih (fun p' hp' => hm p' (List.mem_cons_of_mem _ hp')) p hp c hc

/-- The grouping fold preserves the invariant for every processed pair
list drawn from the reference list. -/
theorem groupOk_foldl (X : List (String × String)) :
    ∀ (l : List (String × String)), (∀ q ∈ l, q ∈ X) →
    ∀ (m : List (String × List String)),
      (∀ p ∈ m, ∀ c ∈ p.2, (c, p.1) ∈ X) →
      ∀ p ∈ l.foldl (fun m q => appendGroup q.2 q.1 m) m, ∀ c ∈ p.2,
        (c, p.1) ∈ X := by
  intro l
  induction l with
  | nil => intro _ m hm; exact hm
  | cons q t ih =>
    intro hl m hm
    refine ih (fun q' hq' => hl q' (List.mem_cons_of_mem _ hq')) _ ?_
    have hq : (q.1, q.2) ∈ X := by
      have := hl q (List.mem_cons_self _ _)
      simpa using this
    exact groupOk_appendGroup X q.2 q.1 m hm hq

/-- Every code grouped under a department by `major_courses_map` is bound
to that department in `code_dept_map`. -/
theorem mem_group_mem_dept_map (all_courses : List CourseRecord)
    (dept : String) (codes : List String)
    (h : (dept, codes) ∈ major_courses_map all_courses)
    (code : String) (hc : code ∈ codes) :
    (code, dept) ∈ code_dept_map all_courses := by
  unfold major_courses_map at h
  exact groupOk_foldl (code_dept_map all_courses) (code_dept_map all_courses)
    (fun q hq => hq) [] (by intro p hp; cases hp) (dept, codes) h code hc

/-! ## Node provenance inside one department graph -/

/-- Every node after the prerequisite loop of one course is an old node,
the course's normalized code, or a normalized extracted prerequisite. -/
theorem mem_nodes_addPrereqEdge_foldl (cf : String) (l : List String) :
    ∀ (g : Graph) (x : String), x ∈ (l.foldl (addPrereqEdge cf) g).nodes →
      x ∈ g.nodes ∨ x = cf ∨ ∃ p ∈ l, x = normalizePrereqCode p := by
  induction l with
  | nil => intro g x hx; exact Or.inl hx
  | cons p t ih =>
    intro g x hx
    rcases ih (addPrereqEdge cf g p) x hx with h | h | ⟨p', hp', hx'⟩
    · simp only [addPrereqEdge] at h
      split at h
      · rcases Graph.mem_nodes_addEdge h with h' | h' | h'
        · exact Or.inr (Or.inr ⟨p, List.mem_cons_self _ _, h'⟩)
        · exact Or.inr (Or.inl h')
        · exact Or.inl h'
      · exact Or.inl h
    · exact Or.inr (Or.inl h)
    · exact Or.inr (Or.inr ⟨p', List.mem_cons_of_mem _ hp', hx'⟩)

/-- Every node after folding `edgesForCode` over a code list is an old
node or accounted for by one of the codes. -/
theorem mem_nodes_edgesForCode_foldl (pm : List (String × String))
    (codes : List String) :
    ∀ (g : Graph) (x : String),
      x ∈ (codes.foldl (edgesForCode pm) g).nodes →
      x ∈ g.nodes ∨ ∃ code ∈ codes,
        x = normalizeCourseCode code ∨
        ∃ p ∈ clean_prereq ((lookupA code pm).getD ""),
          x = normalizePrereqCode p := by
  induction codes with
  | nil => intro g x hx; exact Or.inl hx
  | cons code t ih =>
    intro g x hx
    rcases ih (edgesForCode pm g code) x hx with h | ⟨code', hc', hx'⟩
    · unfold edgesForCode at h
      rcases mem_nodes_addPrereqEdge_foldl _ _ _ _ h with h' | h' | ⟨p, hp, hx'⟩
      · exact Or.inl h'
      · exact Or.inr ⟨code, List.mem_cons_self _ _, Or.inl h'⟩
      · exact Or.inr ⟨code, List.mem_cons_self _ _, Or.inr ⟨p, hp, hx'⟩⟩
    · exact Or.inr ⟨code', List.mem_cons_of_mem _ hc', hx'⟩

/-- Every node of a department graph is accounted for by one of the
department's member codes. -/
theorem mem_nodes_buildDeptGraph (pm : List (String × String))
    (codes : List String) (x : String)
    (hx : x ∈ (buildDeptGraph pm codes).nodes) :
    ∃ code ∈ codes, x = normalizeCourseCode code ∨
      ∃ p ∈ clean_prereq ((lookupA code pm).getD ""),
        x = normalizePrereqCode p := by
  unfold buildDeptGraph at hx
  rcases mem_nodes_edgesForCode_foldl pm codes Graph.empty x hx with h | h
  · cases h
  · exact h

/-! ## C2 — node provenance of department graphs -/

/-- Counterexample to C2 as stated: building the graphs for a one-course
catalog whose CS course names a MAC prerequisite puts the node
`"MAC\n2311"` into the CS department graph, although the normalized code
of the only CS course is `"COP\n3502"` — a node from outside the
department. -/
theorem dept_graph_contains_foreign_node :
    build_graph_for_all_majors allCex = [("CS", Gcex)] ∧
    Gcex.nodes = ["MAC\n2311", "COP\n3502"] ∧
    allCex = [recMac] ∧ deptOf recMac = "CS" ∧
    normalizeCourseCode recMac.code = "COP\n3502" ∧
    ("MAC\n2311" : String) ≠ "COP\n3502" :=
  ⟨by decide, rfl, rfl, by decide, by decide, by decide⟩

/-- **C2 (amended).** Every node of the department graph that
`build_graph_for_all_majors` produces for a department is either the
normalized course code of some course record of that department, or the
normalized form of a prerequisite code extracted from the prerequisites
text of some course record of that department.  (The claim's stronger
form — that every node is the normalized code of a course *of that
department* — fails: extracted prerequisite codes are added as nodes with
no department check, see `dept_graph_contains_foreign_node`.) -/
theorem dept_graph_node_provenance (all_courses : List CourseRecord)
    (dept : String) (G : Graph)
    (hG : (dept, G) ∈ build_graph_for_all_majors all_courses)
    (n : String) (hn : n ∈ G.nodes) :
    ∃ c ∈ all_courses, deptOf c = dept ∧
      (n = normalizeCourseCode c.code ∨
        ∃ p ∈ clean_prereq c.prerequisites, n = normalizePrereqCode p) := by
  unfold build_graph_for_all_majors at hG
  rcases List.mem_map.mp hG with ⟨⟨d, codes⟩, hmem, heq⟩
  have hd : d = dept := congrArg Prod.fst heq
  have hG' : buildDeptGraph (code_prereq_map all_courses) codes = G :=
    congrArg Prod.snd heq
  subst hd
  rw [← hG'] at hn
  rcases mem_nodes_buildDeptGraph _ _ _ hn with ⟨code, hcode, hcase⟩
  have hcd : (code, d) ∈ code_dept_map all_courses :=
    mem_group_mem_dept_map all_courses d codes hmem code hcode
  rcases code_dept_mem_course all_courses code d hcd with
    ⟨c, hcall, hccode, hcdept, hcpm⟩
  refine ⟨c, hcall, hcdept, ?_⟩
  rcases hcase with h | ⟨p, hp, hx⟩
  · exact Or.inl (by rw [h, hccode])
  · refine Or.inr ⟨p, ?_, hx⟩
    rw [hcpm] at hp
    simpa using hp

/-- Witness for C2 (amended) at a concrete input: the foreign node
`"MAC\n2311"` of the CS graph is accounted for as an extracted
prerequisite of a CS course. -/
theorem dept_graph_node_provenance_witness :
    ∃ c ∈ allCex, deptOf c = "CS" ∧
      ("MAC\n2311" = normalizeCourseCode c.code ∨
        ∃ p ∈ clean_prereq c.prerequisites,
          "MAC\n2311" = normalizePrereqCode p) :=
  dept_graph_node_provenance allCex "CS" Gcex
    (by rw [(by decide : build_graph_for_all_majors allCex = [("CS", Gcex)])]
        exact List.mem_singleton.mpr rfl)
    "MAC\n2311" (by simp [Gcex])

/-! ## C3 — normalization is *not* idempotent -/

/-- `format_course_code` always inserts exactly one newline. -/
theorem count_newline_format (l : List Char) :
    (format_course_code l).count '\n' = l.count '\n' + 1 := by
  unfold format_course_code
  conv_rhs => rw [← List.take_append_drop 3 l]
  rw [List.count_append, List.count_append, List.count_cons_self]
  omega

/-- `rstrip` with a strip set not containing the newline preserves the
newline count. -/
theorem count_newline_pyRstrip (p : Char → Bool) (hp : p '\n' = false)
    (l : List Char) : (pyRstrip p l).count '\n' = l.count '\n' := by
  unfold pyRstrip
  rw [List.count_reverse]
  conv_rhs => rw [← List.count_reverse, ← List.takeWhile_append_dropWhile p
    l.reverse]
  rw [List.count_append]
  have h0 : (l.reverse.takeWhile p).count '\n' = 0 := by
    rw [List.count_eq_zero]
    intro hmem
    have hmem' := List.mem_takeWhile_imp hmem
    rw [hp] at hmem'
    exact Bool.noConfusion hmem'
  omega

/-- Normalizing adds exactly one newline to the code. -/
theorem count_newline_normalize (s : String) :
    (normalizeCourseCode s).data.count '\n' = s.data.count '\n' + 1 := by
  show (format_course_code (pyRstrip stripSet s.data)).count '\n' = _
  rw [count_newline_format, count_newline_pyRstrip stripSet (by decide)]

/-- Counterexample to C3 as stated: normalizing the already-normalized
code `"COP\n3502"` does not return it unchanged — it inserts a second
separator, yielding `"COP\n\n3502"`. -/
theorem normalize_not_idempotent_cex :
    normalizeCourseCode (normalizeCourseCode "COP3502") ≠
      normalizeCourseCode "COP3502" := by decide

/-- **C3 (amended).** Course-code normalization is *never* idempotent —
renormalizing any normalized code inserts an extra separator, so it never
returns the input unchanged — but the two raw codes `"COP3502C"` and
`"COP3502"` do normalize to the same value (`"COP\n3502"`). -/
theorem normalize_amended :
    (∀ s : String, normalizeCourseCode (normalizeCourseCode s) ≠
        normalizeCourseCode s) ∧
      normalizeCourseCode "COP3502C" = normalizeCourseCode "COP3502" := by
  constructor
  · intro s h
    have h2 := congrArg (fun t : String => t.data.count '\n') h
    simp only at h2
    rw [count_newline_normalize] at h2
    omega
  · decide

/-! ## C4 — what exactly does `clean_prereq` extract? -/

/-- A whitespace character is not an uppercase letter. -/
theorem space_not_upper {c : Char} (hw : isPySpace c = true) :
    ¬ isUpperAZ c = true := by
  simp only [isPySpace, isUpperAZ, Bool.or_eq_true, Bool.and_eq_true,
    decide_eq_true_eq] at *
  omega

/-- A digit is not an uppercase letter. -/
theorem digit_not_upper {c : Char} (hd : isDigitNd c = true) :
    ¬ isUpperAZ c = true := by
  simp only [isDigitNd, isUpperAZ, Bool.or_eq_true, Bool.and_eq_true,
    decide_eq_true_eq] at *
  omega

/-- Destructuring a list that begins with a shape match. -/
theorem headShape_elim {s : List Char} (h : headShape s = true) :
    ∃ x0 x1 x2 x3 x4 x5 x6 x7 r,
      s = x0 :: x1 :: x2 :: x3 :: x4 :: x5 :: x6 :: x7 :: r ∧
      isUpperAZ x0 = true ∧ isUpperAZ x1 = true ∧ isUpperAZ x2 = true ∧
      isPySpace x3 = true ∧ isDigitNd x4 = true ∧ isDigitNd x5 = true ∧
      isDigitNd x6 = true ∧ isDigitNd x7 = true := by
  rcases s with _|⟨x0,_|⟨x1,_|⟨x2,_|⟨x3,_|⟨x4,_|⟨x5,_|⟨x6,_|⟨x7,r⟩⟩⟩⟩⟩⟩⟩⟩ <;>
      simp only [headShape, Bool.and_eq_true] at h <;>
    try exact absurd h Bool.false_ne_true
  obtain ⟨⟨⟨⟨⟨⟨⟨h0, h1⟩, h2⟩, h3⟩, h4⟩, h5⟩, h6⟩, h7⟩ := h
  exact ⟨x0, x1, x2, x3, x4, x5, x6, x7, r, rfl, h0, h1, h2, h3, h4, h5, h6, h7⟩

/-- An exact shape match destructures into its eight characters. -/
theorem matchShape_elim {t : List Char} (h : matchShape t = true) :
    ∃ a b c w d1 d2 d3 d4,
      t = [a, b, c, w, d1, d2, d3, d4] ∧
      isUpperAZ a = true ∧ isUpperAZ b = true ∧ isUpperAZ c = true ∧
      isPySpace w = true ∧ isDigitNd d1 = true ∧ isDigitNd d2 = true ∧
      isDigitNd d3 = true ∧ isDigitNd d4 = true := by
  simp only [matchShape, Bool.and_eq_true, beq_iff_eq] at h
  obtain ⟨hh, hlen⟩ := h
  obtain ⟨a, b, c, w, d1, d2, d3, d4, r, ht, hc⟩ := headShape_elim hh
  subst ht
  have hr : r = [] := by
    simp only [List.length_cons] at hlen
    exact List.eq_nil_of_length_eq_zero (by omega)
  subst hr
  exact ⟨a, b, c, w, d1, d2, d3, d4, rfl, hc.1, hc.2.1, hc.2.2.1, hc.2.2.2.1,
    hc.2.2.2.2.1, hc.2.2.2.2.2.1, hc.2.2.2.2.2.2.1, hc.2.2.2.2.2.2.2⟩

/-- If a list begins with a shape match, its first eight characters are an
exact match. -/
theorem matchShape_take8 {s : List Char} (h : headShape s = true) :
    matchShape (s.take 8) = true := by
  obtain ⟨x0, x1, x2, x3, x4, x5, x6, x7, r, hs, h0, h1, h2, h3, h4, h5, h6,
    h7⟩ := headShape_elim h
  subst hs
  have ht : (x0 :: x1 :: x2 :: x3 :: x4 :: x5 :: x6 :: x7 :: r).take 8 =
      [x0, x1, x2, x3, x4, x5, x6, x7] := rfl
  rw [ht]
  simp [matchShape, headShape, h0, h1, h2, h3, h4, h5, h6, h7]

/-- A shape match sitting at the very front of a list makes that list
begin with a shape match. -/
theorem headShape_of_prefix_match {s t : List Char} (ht : matchShape t = true)
    (hp : t <+: s) : headShape s = true := by
  obtain ⟨a, b, c, w, d1, d2, d3, d4, hteq, h0, h1, h2, h3, h4, h5, h6, h7⟩ :=
    matchShape_elim ht
  subst hteq
  obtain ⟨v, hv⟩ := hp
  subst hv
  simp [headShape, h0, h1, h2, h3, h4, h5, h6, h7]

/-- A prefix of length 8 is the first eight characters. -/
theorem eq_take8_of_prefix_match {s t : List Char} (hl : t.length = 8)
    (hp : t <+: s) : t = s.take 8 := by
  obtain ⟨v, hv⟩ := hp
  subst hv
  rw [List.take_left' hl]

/-- Non-overlap: two `[A-Z]{3}\s\d{4}` matches cannot overlap.  If a list
begins with a shape match, then any shape-match infix is either exactly the
first eight characters or lies entirely past them. -/
theorem shape_infix_cases {s t : List Char} (hhead : headShape s = true)
    (ht : matchShape t = true) (hinf : t <:+: s) :
    t = s.take 8 ∨ t <:+: s.drop 8 := by
  obtain ⟨x0, x1, x2, x3, x4, x5, x6, x7, r, hs, g0, g1, g2, g3, g4, g5, g6,
    g7⟩ := headShape_elim hhead
  obtain ⟨a, b, c, w, d1, d2, d3, d4, hteq, f0, f1, f2, f3, f4, f5, f6, f7⟩ :=
    matchShape_elim ht
  subst hs; subst hteq
  obtain ⟨u, v, huv⟩ := hinf
  rcases u with _|⟨y0,_|⟨y1,_|⟨y2,_|⟨y3,_|⟨y4,_|⟨y5,_|⟨y6,_|⟨y7,u⟩⟩⟩⟩⟩⟩⟩⟩ <;>
    simp only [List.cons_append, List.nil_append, List.cons.injEq] at huv
  · obtain ⟨e0, e1, e2, e3, e4, e5, e6, e7, hv⟩ := huv
    subst e0; subst e1; subst e2; subst e3
    subst e4; subst e5; subst e6; subst e7
    left
    rfl
  · obtain ⟨e0, e1, e2, e3, hrest⟩ := huv
    exact absurd (e3 ▸ f2) (space_not_upper g3)
  · obtain ⟨e0, e1, e2, e3, hrest⟩ := huv
    exact absurd (e3 ▸ f1) (space_not_upper g3)
  · obtain ⟨e0, e1, e2, e3, hrest⟩ := huv
    exact absurd (e3 ▸ f0) (space_not_upper g3)
  · obtain ⟨e0, e1, e2, e3, e4, hrest⟩ := huv
    exact absurd (e4 ▸ f0) (digit_not_upper g4)
  · obtain ⟨e0, e1, e2, e3, e4, e5, hrest⟩ := huv
    exact absurd (e5 ▸ f0) (digit_not_upper g5)
  · obtain ⟨e0, e1, e2, e3, e4, e5, e6, hrest⟩ := huv
    exact absurd (e6 ▸ f0) (digit_not_upper g6)
  · obtain ⟨e0, e1, e2, e3, e4, e5, e6, e7, hrest⟩ := huv
    exact absurd (e7 ▸ f0) (digit_not_upper g7)
  · obtain ⟨e0, e1, e2, e3, e4, e5, e6, e7, htail⟩ := huv
    right
    show _ <:+: r
    refine ⟨u, v, ?_⟩
    rw [← htail]

/-- The characterization of `re.findall(r'[A-Z]{3}\s\d{4}', ·)`: a string
is returned iff it is an exact shape match and an infix of the input.  The
two directions rest on the fact that shape matches can never overlap, so
the leftmost non-overlapping scan misses none of them. -/
theorem mem_reFindAll_iff (s t : List Char) :
    t ∈ reFindAll s ↔ (matchShape t = true ∧ t <:+: s) := by
  cases s with
  | nil =>
    constructor
    · intro h
      exact absurd h (List.not_mem_nil t)
    · rintro ⟨hm, hinf⟩
      obtain ⟨u, v, huv⟩ := hinf
      rcases List.append_eq_nil.mp huv with ⟨hu, hv⟩
      rcases List.append_eq_nil.mp hu with ⟨hu', htnil⟩
      subst htnil
      exact absurd hm (by decide)
  | cons c rest =>
    rw [reFindAll_cons]
    by_cases hh : headShape (c :: rest) = true
    · rw [if_pos hh]
      constructor
      · intro h
        rcases List.mem_cons.mp h with h | h
        · subst h
          exact ⟨matchShape_take8 hh,
            (List.take_prefix 8 (c :: rest)).isInfix⟩
        · obtain ⟨hm, hinf⟩ := (mem_reFindAll_iff ((c :: rest).drop 8) t).mp h
          exact ⟨hm, hinf.trans (List.drop_suffix 8 (c :: rest)).isInfix⟩
      · rintro ⟨hm, hinf⟩
        rcases shape_infix_cases hh hm hinf with h | h
        · exact List.mem_cons.mpr (Or.inl h)
        · exact List.mem_cons.mpr (Or.inr
            ((mem_reFindAll_iff ((c :: rest).drop 8) t).mpr ⟨hm, h⟩))
    · rw [if_neg hh]
      constructor
      · intro h
        obtain ⟨hm, hinf⟩ := (mem_reFindAll_iff rest t).mp h
        exact ⟨hm, hinf.trans (List.suffix_cons c rest).isInfix⟩
      · rintro ⟨hm, hinf⟩
        rcases List.infix_cons_iff.mp hinf with hpre | hinf'
        · exact absurd (headShape_of_prefix_match hm hpre) hh
        · exact (mem_reFindAll_iff rest t).mpr ⟨hm, hinf'⟩
termination_by s.length
decreasing_by
  · simp only [List.length_drop, List.length_cons]; omega
  · simp only [List.length_drop, List.length_cons]; omega
  · simp only [List.length_cons]; omega
  · simp only [List.length_cons]; omega

/-- Counterexample to C4 as stated: the regex class `\s` matches more
than the literal space — `clean_prereq` extracts `"COP\t3502"` from the
text `"COP\t3502"`, and likewise the code `"COP\u00A03502"` (with a
no-break space) from that text, although those texts contain no substring of the
literal shape "three uppercase letters, one *space*, four digits" — the
extracted codes' fourth character is a tab (resp. U+00A0), not a space. -/
theorem clean_prereq_tab_cex :
    clean_prereq "COP\t3502" = ["COP\t3502"] ∧
      "COP\t3502".data = ['C', 'O', 'P', '\t', '3', '5', '0', '2'] ∧
      ('\t' : Char) ≠ ' ' ∧
      clean_prereq "COP\u00A03502" = ["COP\u00A03502"] ∧
      ('\u00A0' : Char) ≠ ' ' :=
  ⟨by decide, by decide, by decide, by decide, by decide⟩

/-- **C4 (amended).** For every prerequisites string, the set of candidate
prerequisite codes extracted by `clean_prereq` is exactly the set of
substrings of the shape "three uppercase letters, one *whitespace
character*, four *decimal digits*", where — the regex pattern being a
`str` compiled without `re.ASCII` — the whitespace class `\s` is Python's
Unicode whitespace (`isPySpace`, which includes e.g. tab and the no-break
space) and the digit class `\d` is any Unicode category-Nd decimal digit
(`isDigitNd`); any text not of this shape contributes nothing, and
extraction never fails. -/
theorem clean_prereq_matches_iff (s m : String) :
    m ∈ clean_prereq s ↔ (matchShape m.data = true ∧ m.data <:+: s.data) := by
  unfold clean_prereq
  constructor
  · intro h
    rcases List.mem_map.mp h with ⟨l, hl, hml⟩
    have hd : m.data = l := by rw [← hml]
    rw [hd]
    exact (mem_reFindAll_iff s.data l).mp hl
  · rintro ⟨hm, hinf⟩
    refine List.mem_map.mpr ⟨m.data,
      (mem_reFindAll_iff s.data m.data).mpr ⟨hm, hinf⟩, ?_⟩
    cases m
    rfl
